import Mathlib

/-!
Verification development for the `gmail-cli` terminal mail client
(`src/google_api.rs`, `src/tui.rs`, `src/main.rs`).

The definitions below are a shallow embedding of the program:
pure Rust functions become Lean functions, the channel-based TUI loop
becomes explicit state passing over a `LoopState`, and external
collaborators (the base64url + UTF-8 decoding stack and the `html2text`
renderer) are passed in as function parameters, since the program depends
only on their input/output behaviour.
-/

namespace GmailCli

/-! ### Data model (`src/google_api.rs`) -/

/-- Embeds `struct MessageHeader { name, value }`. -/
structure MessageHeader where
  name : String
  value : String
deriving Repr, DecidableEq

/-- Embeds `struct MessageBody { data: Option<String> }`. -/
structure MessageBody where
  data : Option String
deriving Repr, DecidableEq

/-- Embeds `struct MessagePayload { headers, body, parts, mime_type }`:
a MIME tree node with optional inline body and optional child parts. -/
inductive MessagePayload : Type where
  | mk (headers : List MessageHeader) (body : Option MessageBody)
       (parts : Option (List MessagePayload)) (mime_type : String)

/-- Projection for the `headers` field of `MessagePayload`. -/
def MessagePayload.headers : MessagePayload → List MessageHeader
  | .mk hs _ _ _ => hs

/-- Projection for the `body` field of `MessagePayload`. -/
def MessagePayload.body : MessagePayload → Option MessageBody
  | .mk _ b _ _ => b

/-- Projection for the `parts` field of `MessagePayload`. -/
def MessagePayload.parts : MessagePayload → Option (List MessagePayload)
  | .mk _ _ ps _ => ps

/-- Projection for the `mime_type` field of `MessagePayload`. -/
def MessagePayload.mime_type : MessagePayload → String
  | .mk _ _ _ m => m

/-- Embeds `struct MessageDetail { id, snippet, payload, label_ids }`. -/
structure MessageDetail where
  id : String
  snippet : String
  payload : Option MessagePayload
  label_ids : Option (List String)

/-- Embeds `char::to_ascii_lowercase` comparison (Lean's `Char.toLower`
lowers exactly the ASCII uppercase range, matching Rust's
`eq_ignore_ascii_case` on the header names used here). -/
def eqIgnoreAsciiCase (a b : String) : Bool :=
  a.data.map Char.toLower == b.data.map Char.toLower

/-- Embeds `MessageDetail::get_header`: finds the first header whose name
matches case-insensitively and returns its value, else the empty string. -/
def MessageDetail.get_header (detail : MessageDetail) (name : String) : String :=
  match detail.payload with
  | some p =>
    match p.headers.find? (fun h => eqIgnoreAsciiCase h.name name) with
    | some h => h.value
    | none => ""
  | none => ""

/-- Embeds `MessageDetail::is_unread`: true iff `label_ids` is present and
contains `"UNREAD"`. -/
def MessageDetail.is_unread (detail : MessageDetail) : Bool :=
  match detail.label_ids with
  | some labels => labels.contains "UNREAD"
  | none => false

/-! ### MIME body decoder (`find_body_parts`, `decode_email_body`)

The Rust code decodes a part's inline data with
`URL_SAFE_NO_PAD.decode(data)` followed by `String::from_utf8`; both are
external library calls whose only relevant behaviour is "succeed with a
string, or fail".  That composition is the parameter
`dec : String → Option String` below (`none` models either failure).
Similarly `html2text::from_read(bytes, 80)` is the parameter
`render : String → Nat → String` applied at width 80. -/

mutual

/-- Embeds `find_body_parts` (google_api.rs:216-247): pre-order walk of the
payload tree returning `(plain_text, html_text)` candidates, where a
candidate already found is kept (`if plain_text.is_none() { ... }`). -/
def find_body_parts (dec : String → Option String) :
    MessagePayload → Option String × Option String
  | .mk _ body parts mime_type =>
    let node : Option String × Option String :=
      if mime_type = "text/plain" then
        ((body.bind MessageBody.data).bind dec, none)
      else if mime_type = "text/html" then
        (none, (body.bind MessageBody.data).bind dec)
      else (none, none)
    match parts with
    | none => node
    | some ps => find_body_parts_list dec node.1 node.2 ps

/-- Embeds the `for part in parts` loop of `find_body_parts`: folds the
children left to right, keeping an already-found candidate. -/
def find_body_parts_list (dec : String → Option String)
    (plain_text html_text : Option String) :
    List MessagePayload → Option String × Option String
  | [] => (plain_text, html_text)
  | part :: rest =>
    let r := find_body_parts dec part
    find_body_parts_list dec
      (if plain_text.isNone then r.1 else plain_text)
      (if html_text.isNone then r.2 else html_text) rest

end

/-- Embeds `decode_email_body` (google_api.rs:249-263): tiered fallback
plain text, then rendered html at width 80, then the snippet. -/
def decode_email_body (dec : String → Option String)
    (render : String → Nat → String) (detail : MessageDetail) : String :=
  match detail.payload with
  | some payload =>
    match find_body_parts dec payload with
    | (some plain_text, _) => plain_text
    | (none, some html_text) => render html_text 80
    | (none, none) => detail.snippet
  | none => detail.snippet

/-! ### TUI state machine (`src/tui.rs`) -/

/-- Embeds `enum AppMode { List, Viewing }`. -/
inductive AppMode : Type where
  | List
  | Viewing
deriving Repr, DecidableEq

/-- Embeds `struct EmailInfo { id, from, subject, is_unread, snippet }`. -/
structure EmailInfo where
  id : String
  «from» : String
  subject : String
  is_unread : Bool
  snippet : String
deriving Repr, DecidableEq

/-- Bounded mpsc sender endpoint: the buffered messages plus the channel's
capacity.  `try_send` appends when there is room and otherwise drops. -/
structure Channel (α : Type) where
  buffer : List α
  capacity : Nat
deriving Repr, DecidableEq

/-- Embeds tokio's non-blocking `Sender::try_send`: enqueue if the buffer
is below capacity, otherwise drop the message and leave the channel as is. -/
def Channel.try_send (ch : Channel α) (x : α) : Channel α :=
  if ch.buffer.length < ch.capacity then { ch with buffer := ch.buffer ++ [x] } else ch

/-- Receiver endpoint of an mpsc channel: pending messages plus whether the
sender side has been dropped (channel closed). -/
structure Rx (α : Type) where
  buffer : List α
  closed : Bool
deriving Repr, DecidableEq

/-- Result of tokio's `Receiver::try_recv`. -/
inductive RecvResult (α : Type) : Type where
  | ok (a : α)
  | empty
  | disconnected
deriving Repr, DecidableEq

/-- Embeds `Receiver::try_recv`: pop the oldest buffered message if any;
on an empty buffer report `empty`, or `disconnected` once the sender is
gone. -/
def Rx.try_recv (rx : Rx α) : RecvResult α × Rx α :=
  match rx.buffer with
  | a :: rest => (.ok a, { rx with buffer := rest })
  | [] => (if rx.closed then .disconnected else .empty, rx)

/-- Embeds `struct App` (tui.rs:31-38): the view state owned by the
render/input thread.  `scroll_offset` is a `u16` in the source, so
`scroll_down`'s `saturating_add` caps at `65535`. -/
structure App where
  mode : AppMode
  is_loading : Bool
  emails : List EmailInfo
  selected_index : Nat
  current_email_body : String
  scroll_offset : Nat
deriving Repr, DecidableEq

/-- Embeds `App::select` (tui.rs:63-72): when the target index differs from
the current one or the current body string is empty, set the selection,
reset the scroll, install the `"Loading..."` placeholder and `try_send`
the selected email's id; otherwise do nothing. -/
def App.select (app : App) (index : Nat) (tx : Channel String) : App × Channel String :=
  if app.selected_index ≠ index ∨ app.current_email_body = "" then
    let app' := { app with
      selected_index := index
      scroll_offset := 0
      current_email_body := "Loading..." }
    match app.emails.get? index with
    | some email => (app', tx.try_send email.id)
    | none => (app', tx)
  else (app, tx)

/-- Embeds `App::previous` (tui.rs:41-50): wraparound decrement on a
non-empty list, no-op on an empty one. -/
def App.previous (app : App) (tx : Channel String) : App × Channel String :=
  if app.emails.isEmpty then (app, tx)
  else
    let new_index :=
      if app.selected_index > 0 then app.selected_index - 1
      else app.emails.length - 1
    app.select new_index tx

/-- Embeds `App::next` (tui.rs:52-61): wraparound increment on a non-empty
list, no-op on an empty one. -/
def App.next (app : App) (tx : Channel String) : App × Channel String :=
  if app.emails.isEmpty then (app, tx)
  else
    let new_index :=
      if app.selected_index < app.emails.length - 1 then app.selected_index + 1
      else 0
    app.select new_index tx

/-- Embeds `App::scroll_down`: `u16::saturating_add(1)`. -/
def App.scroll_down (app : App) : App :=
  { app with scroll_offset := min (app.scroll_offset + 1) 65535 }

/-- Embeds `App::scroll_up`: `u16::saturating_sub(1)` (Nat subtraction is
already floor-saturating at 0). -/
def App.scroll_up (app : App) : App :=
  { app with scroll_offset := app.scroll_offset - 1 }

/-- Remote calls a piece of code can issue against the Gmail API; used to
record which network operations the render/input loop performs directly. -/
inductive NetCall : Type where
  | listMessages
  | getHeaders (id : String)
  | getFullMessage (id : String)
  | markRead (id : String)
deriving Repr, DecidableEq

/-- Embeds the `KeyCode`s the loop reacts to (tui.rs:234-257). -/
inductive Key : Type where
  | char_q
  | down
  | up
  | enter
  | other
deriving Repr, DecidableEq

/-- Embeds the Viewing-mode `q` handler (tui.rs:244-253): if an email is
selected and unread, call `mark_as_read` (a direct network call from the
loop, recorded in the returned list) and clear its flag only on success;
then switch back to `List` mode.  `markReadOk id` models the success of
the remote `mark_as_read` call. -/
def viewingQuit (app : App) (markReadOk : String → Bool) : App × List NetCall :=
  match app.emails.get? app.selected_index with
  | some email =>
    if email.is_unread then
      if markReadOk email.id then
        ({ app with
            emails := app.emails.set app.selected_index { email with is_unread := false }
            mode := .List },
         [.markRead email.id])
      else ({ app with mode := .List }, [.markRead email.id])
    else ({ app with mode := .List }, [])
  | none => ({ app with mode := .List }, [])

/-- Outcome of one key-handling step of the main loop: the new app state,
the request-channel state, the network calls the loop issued directly,
and whether the loop `break`s. -/
structure StepOut where
  app : App
  tx : Channel String
  calls : List NetCall
  quit : Bool
deriving Repr, DecidableEq

/-- Embeds the `User Input` match of the main loop (tui.rs:230-260). -/
def handleKey (app : App) (tx : Channel String) (key : Key)
    (markReadOk : String → Bool) : StepOut :=
  match app.mode with
  | .List =>
    match key with
    | .char_q => ⟨app, tx, [], true⟩
    | .down =>
      let r := app.next tx
      ⟨r.1, r.2, [], false⟩
    | .up =>
      let r := app.previous tx
      ⟨r.1, r.2, [], false⟩
    | .enter => ⟨{ app with mode := .Viewing }, tx, [], false⟩
    | .other => ⟨app, tx, [], false⟩
  | .Viewing =>
    match key with
    | .char_q =>
      let r := viewingQuit app markReadOk
      ⟨r.1, tx, r.2, false⟩
    | .down => ⟨app.scroll_down, tx, [], false⟩
    | .up => ⟨app.scroll_up, tx, [], false⟩
    | .enter => ⟨app, tx, [], false⟩
    | .other => ⟨app, tx, [], false⟩

/-- State threaded through the main loop: the app, the `initial_load_done`
flag, both receiver ends and the body-request sender. -/
structure LoopState where
  app : App
  initial_load_done : Bool
  header_rx : Rx EmailInfo
  body_rx : Rx String
  tx : Channel String
deriving Repr, DecidableEq

/-- Embeds the `Event & Data Handling` block of one loop iteration
(tui.rs:142-162): when not loading, poll only the body-result channel and
install a received body; when loading, poll only the header channel,
append a received summary (auto-selecting index 0 on the very first one),
and clear the loading flag on disconnect. -/
def drainStep (s : LoopState) : LoopState :=
  if s.app.is_loading then
    match s.header_rx.try_recv with
    | (.ok email, rx') =>
      let app' := { s.app with emails := s.app.emails ++ [email] }
      if s.initial_load_done then
        { s with app := app', header_rx := rx' }
      else
        let r := app'.select 0 s.tx
        { s with app := r.1, tx := r.2, header_rx := rx', initial_load_done := true }
    | (.disconnected, rx') =>
      { s with app := { s.app with is_loading := false }, header_rx := rx' }
    | (_, rx') => { s with header_rx := rx' }
  else
    match s.body_rx.try_recv with
    | (.ok body, rx') =>
      { s with app := { s.app with current_email_body := body }, body_rx := rx' }
    | (_, rx') => { s with body_rx := rx' }

/-- Embeds one full iteration of the main loop (tui.rs:142-260): drain the
channels, draw (pure, no state change), then handle an input key when the
50ms poll reported one.  Returns the network calls the loop itself issued
and whether it quit. -/
def iteration (s : LoopState) (key : Option Key) (markReadOk : String → Bool) :
    LoopState × List NetCall × Bool :=
  let s' := drainStep s
  match key with
  | none => (s', [], false)
  | some k =>
    let out := handleKey s'.app s'.tx k markReadOk
    ({ s' with app := out.app, tx := out.tx }, out.calls, out.quit)

/-- Embeds the `App` initialisation (tui.rs:124-131). -/
def initApp : App :=
  { mode := .List
    is_loading := true
    emails := []
    selected_index := 0
    current_email_body := "Loading email list..."
    scroll_offset := 0 }

/-- ViewState invariant claimed by the spec: the selection is in bounds
whenever the list is non-empty, and pinned to 0 while it is empty. -/
def AppInv (app : App) : Prop :=
  (app.emails ≠ [] → app.selected_index < app.emails.length) ∧
  (app.emails = [] → app.selected_index = 0)

/-! ### Header sync producer (`run`, tui.rs:90-111)

The producer lists message ids, issues all header fetches at once via
`futures::future::join_all`, and then drains the results in input order.
`join_all` is modelled operationally: each future completes at some point
of a completion schedule (`order`, a permutation of the indices), writes
its result into its slot, and `join_all` returns the slots in input
order.  The remote calls themselves are modelled by their outcomes:
`fetch id` is the result of `get_message_headers` for `id`. -/

/-- Embeds `struct Message { id, thread_id }`. -/
structure Message where
  id : String
  thread_id : String
deriving Repr, DecidableEq

/-- Embeds `struct MessageList { messages, ... }` (the fields the producer
reads). -/
structure MessageList where
  messages : Option (List Message)

/-- Looks up the slot written for future `i` in a completion table. -/
def lookupSlot (tbl : List (Nat × α)) (i : Nat) : Option α :=
  (tbl.find? (fun e => e.1 == i)).map (fun e => e.2)

/-- Completion table of `join_all`: processing completions in schedule
order, future `i` writes its value `results[i]` into slot `i`. -/
def joinTable (results : List α) (order : List Nat) : List (Nat × α) :=
  order.filterMap (fun i => (results.get? i).map (fun v => (i, v)))

/-- Model of `futures::future::join_all`: futures complete in schedule
order, each filling its own slot, and the combined future yields the
slots in input order. -/
def join_all_sched (results : List α) (order : List Nat) : List α :=
  (List.range results.length).filterMap (fun i => lookupSlot (joinTable results order) i)

/-- Embeds the `EmailInfo` construction of the header producer
(tui.rs:100-106). -/
def emailInfoOfDetail (detail : MessageDetail) : EmailInfo :=
  { id := detail.id
    «from» := detail.get_header "From"
    subject := detail.get_header "Subject"
    is_unread := detail.is_unread
    snippet := detail.snippet }

/-- Embeds the header sync producer task (tui.rs:91-111): on a successful
listing, fan out all header fetches, `join_all` them under completion
schedule `order`, and emit an `EmailInfo` per successful fetch, draining
results in input order.  A failed listing emits nothing. -/
def header_sync_emitted (listResult : Option MessageList)
    (fetch : String → Option MessageDetail) (order : List Nat) : List EmailInfo :=
  match listResult with
  | none => []
  | some message_list =>
    let message_ids := message_list.messages.getD []
    let results := join_all_sched (message_ids.map (fun msg => fetch msg.id)) order
    results.filterMap (fun r => r.map emailInfoOfDetail)

/-! ### Specification-side view of the walk, for claim C3

`preorderParts dec mime p` lists, in pre-order, the successfully decoded
inline bodies of the parts of `p` whose `mime_type` is `mime`.  This is a
definition of the spec's words ("the pre-order-first decodable parts of
their type"), to be compared with `find_body_parts`. -/

mutual

/-- Pre-order list of the decodable inline bodies of the parts with the
given mime type (spec-side definition for the refinement claim C3). -/
def preorderParts (dec : String → Option String) (mime : String) :
    MessagePayload → List String
  | .mk _ body parts mime_type =>
    (if mime_type = mime then ((body.bind MessageBody.data).bind dec).toList else []) ++
    (match parts with
     | none => []
     | some ps => preorderPartsList dec mime ps)

/-- `preorderParts` mapped over a list of sibling parts, concatenated in
order. -/
def preorderPartsList (dec : String → Option String) (mime : String) :
    List MessagePayload → List String
  | [] => []
  | p :: rest => preorderParts dec mime p ++ preorderPartsList dec mime rest

end

/-- Head of the singleton-or-empty list of an option is the option itself. -/
theorem toList_head? (o : Option α) : o.toList.head? = o := by
  cases o <;> rfl

mutual

/-- The walk's result is the pre-order-first decodable part of each type. -/
theorem find_body_parts_eq_preorder (dec : String → Option String) (p : MessagePayload) :
    find_body_parts dec p =
      ((preorderParts dec "text/plain" p).head?, (preorderParts dec "text/html" p).head?) := by
  match p with
  | .mk hs body parts mime_type =>
    have hplain : (if mime_type = "text/plain" then
          ((body.bind MessageBody.data).bind dec).toList else []).head? =
        (if mime_type = "text/plain" then (body.bind MessageBody.data).bind dec else none) := by
      split <;> simp [toList_head?]
    have hhtml : (if mime_type = "text/html" then
          ((body.bind MessageBody.data).bind dec).toList else []).head? =
        (if mime_type = "text/html" then (body.bind MessageBody.data).bind dec else none) := by
      split <;> simp [toList_head?]
    cases parts with
    | none =>
      simp only [find_body_parts, preorderParts, List.append_nil, hplain, hhtml]
      by_cases h1 : mime_type = "text/plain" <;> by_cases h2 : mime_type = "text/html" <;>
        simp_all
    | some ps =>
      simp only [find_body_parts, preorderParts, List.head?_append, hplain, hhtml,
        find_body_parts_list_eq_preorder dec _ _ ps]
      by_cases h1 : mime_type = "text/plain" <;> by_cases h2 : mime_type = "text/html" <;>
        simp_all [Option.or]

/-- The child-part fold keeps an already-found candidate and otherwise
takes the pre-order-first decodable candidate of the children. -/
theorem find_body_parts_list_eq_preorder (dec : String → Option String)
    (plain_text html_text : Option String) (ps : List MessagePayload) :
    find_body_parts_list dec plain_text html_text ps =
      (plain_text.or (preorderPartsList dec "text/plain" ps).head?,
       html_text.or (preorderPartsList dec "text/html" ps).head?) := by
  match ps with
  | [] => cases plain_text <;> cases html_text <;> simp [find_body_parts_list, preorderPartsList, Option.or]
  | part :: rest =>
    simp only [find_body_parts_list, preorderPartsList, List.head?_append,
      find_body_parts_list_eq_preorder dec _ _ rest,
      find_body_parts_eq_preorder dec part]
    cases plain_text <;> cases html_text <;>
      simp [Option.or, Option.or_assoc, Option.isNone]

end

/-- C3: candidates are selected first-match-wins in pre-order: the walk
returns exactly the pre-order-first decodable part of each type, and a
candidate already found before the child fold is never overwritten by a
later part. -/
theorem C3_first_match_preorder (dec : String → Option String) (p : MessagePayload) :
    ((find_body_parts dec p).1 = (preorderParts dec "text/plain" p).head? ∧
     (find_body_parts dec p).2 = (preorderParts dec "text/html" p).head?) ∧
    (∀ v html_text ps, (find_body_parts_list dec (some v) html_text ps).1 = some v) ∧
    (∀ plain_text v ps, (find_body_parts_list dec plain_text (some v) ps).2 = some v) := by
  refine ⟨⟨?_, ?_⟩, ?_, ?_⟩
  · rw [find_body_parts_eq_preorder]
  · rw [find_body_parts_eq_preorder]
  · intro v html_text ps
    rw [find_body_parts_list_eq_preorder]
    rfl
  · intro plain_text v ps
    rw [find_body_parts_list_eq_preorder]
    rfl

/-- C1: `decode_email_body` returns the walk's plain candidate when one
exists; otherwise the width-80 rendering of the html candidate when one
exists; otherwise (no candidates, or no payload) the snippet; and a part
whose inline data fails decoding (`dec` returns `none`) contributes no
candidate, exactly as if its inline body were absent. -/
theorem C1_decode_email_body_tiering (dec : String → Option String)
    (render : String → Nat → String) (detail : MessageDetail) :
    (∀ payload plain_text, detail.payload = some payload →
      (find_body_parts dec payload).1 = some plain_text →
      decode_email_body dec render detail = plain_text) ∧
    (∀ payload html_text, detail.payload = some payload →
      (find_body_parts dec payload).1 = none →
      (find_body_parts dec payload).2 = some html_text →
      decode_email_body dec render detail = render html_text 80) ∧
    (∀ payload, detail.payload = some payload →
      (find_body_parts dec payload).1 = none →
      (find_body_parts dec payload).2 = none →
      decode_email_body dec render detail = detail.snippet) ∧
    (detail.payload = none → decode_email_body dec render detail = detail.snippet) ∧
    (∀ hs d parts mime_type, dec d = none →
      find_body_parts dec (.mk hs (some ⟨some d⟩) parts mime_type) =
      find_body_parts dec (.mk hs none parts mime_type)) := by
  refine ⟨?_, ?_, ?_, ?_, ?_⟩
  · intro payload plain_text hpay hfst
    rcases hfb : find_body_parts dec payload with ⟨o1, o2⟩
    rw [hfb] at hfst
    simp only at hfst
    subst hfst
    simp [decode_email_body, hpay, hfb]
  · intro payload html_text hpay hfst hsnd
    rcases hfb : find_body_parts dec payload with ⟨o1, o2⟩
    rw [hfb] at hfst hsnd
    simp only at hfst hsnd
    subst hfst; subst hsnd
    simp [decode_email_body, hpay, hfb]
  · intro payload hpay hfst hsnd
    rcases hfb : find_body_parts dec payload with ⟨o1, o2⟩
    rw [hfb] at hfst hsnd
    simp only at hfst hsnd
    subst hfst; subst hsnd
    simp [decode_email_body, hpay, hfb]
  · intro hpay
    simp [decode_email_body, hpay]
  · intro hs d parts mime_type hd
    cases parts <;> simp [find_body_parts, Option.bind, hd]

/-- Every completion-table entry records the completing future's own
result in its own slot. -/
theorem mem_joinTable {α : Type} {results : List α} {order : List Nat} {k : Nat} {v : α}
    (h : (k, v) ∈ joinTable results order) : results.get? k = some v := by
  induction order with
  | nil => simp [joinTable] at h
  | cons j rest ih =>
    cases hj : results.get? j with
    | none =>
      rw [joinTable, List.filterMap_cons, hj] at h
      exact ih (by simpa [joinTable] using h)
    | some w =>
      rw [joinTable, List.filterMap_cons, hj] at h
      simp only [Option.map_some', List.mem_cons, Prod.mk.injEq] at h
      rcases h with ⟨hk, hv⟩ | h
      · subst hk; subst hv; exact hj
      · exact ih (by simpa [joinTable] using h)

/-- For a scheduled index, the completion table holds exactly that
future's result. -/
theorem lookupSlot_joinTable {α : Type} (results : List α) (order : List Nat) (i : Nat)
    (hi : i ∈ order) : lookupSlot (joinTable results order) i = results.get? i := by
  induction order with
  | nil => cases hi
  | cons j rest ih =>
    by_cases hij : j = i
    · subst hij
      cases hj : results.get? j with
      | some w =>
        simp only [lookupSlot, joinTable, List.filterMap_cons, hj, Option.map_some']
        rw [List.find?_cons_of_pos _ (by simp)]
        simp [hj]
      | none =>
        simp only [lookupSlot, joinTable, List.filterMap_cons, hj, Option.map_none']
        have hnone : List.find? (fun e => e.1 == j)
            (List.filterMap (fun i => (results.get? i).map (fun v => (i, v))) rest) = none := by
          rw [List.find?_eq_none]
          intro e he hbeq
          have hkey : e.1 = j := by simpa using hbeq
          have := @mem_joinTable _ results rest e.1 e.2 (by simpa [joinTable] using he)
          rw [hkey, hj] at this
          exact Option.noConfusion this
        rw [hnone]
        simp
    · have hi' : i ∈ rest := by
        rcases List.mem_cons.1 hi with h | h
        · exact absurd h.symm hij
        · exact h
      cases hj : results.get? j with
      | some w =>
        simp only [lookupSlot, joinTable, List.filterMap_cons, hj, Option.map_some']
        rw [List.find?_cons_of_neg _ (by simp [hij])]
        exact (by simpa [lookupSlot, joinTable] using ih hi')
      | none =>
        simp only [lookupSlot, joinTable, List.filterMap_cons, hj, Option.map_none']
        exact (by simpa [lookupSlot, joinTable] using ih hi')

/-- A `filterMap` over `range'` that hits every slot reconstructs the
list. -/
theorem filterMap_range'_eq {α : Type} (f : Nat → Option α) :
    ∀ (l : List α) (j : Nat), (∀ k, k < l.length → f (j + k) = l.get? k) →
      (List.range' j l.length).filterMap f = l := by
  intro l
  induction l with
  | nil => intro j _; rfl
  | cons a rest ih =>
    intro j h
    have h0 : f j = some a := by simpa using h 0 (by simp)
    rw [List.length_cons, List.range'_succ]
    simp only [List.filterMap_cons, h0]
    congr 1
    apply ih (j + 1)
    intro k hk
    have := h (k + 1) (by simpa using Nat.succ_lt_succ hk)
    rw [show j + (k + 1) = j + 1 + k by omega] at this
    simpa using this

/-- Under any completion schedule that is a permutation of the indices,
the modelled `join_all` returns the results in input order. -/
theorem join_all_sched_perm {α : Type} (results : List α) (order : List Nat)
    (h : order.Perm (List.range results.length)) :
    join_all_sched results order = results := by
  rw [join_all_sched, List.range_eq_range']
  apply filterMap_range'_eq
  intro k hk
  rw [Nat.zero_add]
  exact lookupSlot_joinTable results order k (h.mem_iff.2 (List.mem_range.2 hk))

/-- C2: for any listing result and any completion order of the concurrent
header fetches, the producer emits exactly the successful fetches, as
summaries, in the original id-list order; a failed fetch only omits that
one message. -/
theorem C2_header_sync_order (ml : MessageList) (fetch : String → Option MessageDetail)
    (order : List Nat)
    (h : order.Perm (List.range (ml.messages.getD []).length)) :
    header_sync_emitted (some ml) fetch order =
      (ml.messages.getD []).filterMap (fun msg => (fetch msg.id).map emailInfoOfDetail) := by
  show ((join_all_sched ((ml.messages.getD []).map (fun msg => fetch msg.id)) order).filterMap
      (fun r => r.map emailInfoOfDetail)) = _
  rw [join_all_sched_perm _ _ (by rw [List.length_map]; exact h)]
  rw [List.filterMap_map]
  rfl

/-- Witness for C2: ids `[A, B, C]`, B's fetch fails, completion order is
scrambled (`C` first, then `A`, then `B`); the emitted summaries are
`[A, C]` in that order. -/
theorem C2_header_sync_order_witness :
    header_sync_emitted
      (some ⟨some [⟨"A", "tA"⟩, ⟨"B", "tB"⟩, ⟨"C", "tC"⟩]⟩)
      (fun i => if i = "B" then none else some ⟨i, "snip" ++ i, none, none⟩)
      [2, 0, 1] =
      [⟨"A", "", "", false, "snipA"⟩, ⟨"C", "", "", false, "snipC"⟩] := by
  rw [C2_header_sync_order _ _ _ (by decide)]
  decide

/-- C4: evaluating the drain step at the program's initial state with the
first header summary available: the summary is appended and
`initial_load_done` is set, but no body-fetch request is sent and the
placeholder body is untouched — `select(0, ..)` is a no-op here because
the selection already is 0 and the initial body string
`"Loading email list..."` is non-empty, so no pre-fetch happens. -/
theorem C4_first_header_prefetch_eval :
    drainStep
      { app := initApp
        initial_load_done := false
        header_rx := ⟨[⟨"m1", "alice", "hello", true, "snippet1"⟩], false⟩
        body_rx := ⟨[], false⟩
        tx := ⟨[], 10⟩ } =
      { app := { initApp with emails := [⟨"m1", "alice", "hello", true, "snippet1"⟩] }
        initial_load_done := true
        header_rx := ⟨[], false⟩
        body_rx := ⟨[], false⟩
        tx := ⟨[], 10⟩ } := by
  decide

/-- Counterexample to C5: an iteration of the render/input loop in Viewing
mode with an unread selected email and key `q` issues the remote
`mark_as_read` call directly (tui.rs:247), so the loop's direct network
calls are not always empty. -/
theorem C5_loop_net_calls_counterexample :
    (iteration
        { app := { mode := .Viewing, is_loading := false,
                   emails := [⟨"m1", "bob", "hi", true, "sn"⟩],
                   selected_index := 0, current_email_body := "body text",
                   scroll_offset := 0 }
          initial_load_done := true
          header_rx := ⟨[], true⟩
          body_rx := ⟨[], false⟩
          tx := ⟨[], 10⟩ }
        (some .char_q) (fun _ => true)).2.1 = [.markRead "m1"] ∧
    [NetCall.markRead "m1"] ≠ ([] : List NetCall) := by
  decide

/-- C5 (amended): an iteration of the render/input loop performs no remote
call directly except mark-read: either it issues no network call, or the
input was `q` in Viewing mode with an unread selected email and the only
direct call is `markRead` of that email's id.  Listing, header fetches
and body fetches never happen on the loop thread. -/
theorem C5_loop_net_calls_amended (s : LoopState) (key : Option Key)
    (markReadOk : String → Bool) :
    (iteration s key markReadOk).2.1 = [] ∨
    (∃ email, key = some .char_q ∧ (drainStep s).app.mode = .Viewing ∧
      (drainStep s).app.emails.get? (drainStep s).app.selected_index = some email ∧
      email.is_unread = true ∧
      (iteration s key markReadOk).2.1 = [.markRead email.id]) := by
  rcases key with _ | k
  · left; rfl
  · cases hm : (drainStep s).app.mode with
    | List => cases k <;> simp [iteration, handleKey, hm]
    | Viewing =>
      cases k
      case char_q =>
        cases hget : (drainStep s).app.emails.get? (drainStep s).app.selected_index with
        | none =>
          left
          have hget' := hget
          rw [List.get?_eq_getElem?] at hget'
          simp [iteration, handleKey, hm, viewingQuit, hget']
        | some email =>
          have hget' := hget
          rw [List.get?_eq_getElem?] at hget'
          cases hu : email.is_unread with
          | false => left; simp [iteration, handleKey, hm, viewingQuit, hget', hu]
          | true =>
            right
            refine ⟨email, rfl, rfl, rfl, hu, ?_⟩
            cases hok : markReadOk email.id <;>
              simp [iteration, handleKey, hm, viewingQuit, hget', hu, hok]
      all_goals simp [iteration, handleKey, hm]

/-- Both branches of `select` leave the email list unchanged. -/
theorem select_emails (app : App) (index : Nat) (tx : Channel String) :
    (App.select app index tx).1.emails = app.emails := by
  by_cases h : app.selected_index ≠ index ∨ app.current_email_body = ""
  · cases hget : app.emails.get? index <;>
      simp only [App.select, if_pos h, hget]
  · simp only [App.select, if_neg h]

/-- After `select index`, the selection is `index`: the mutating branch
sets it, and the no-op branch only fires when it already equals `index`. -/
theorem select_selected_index (app : App) (index : Nat) (tx : Channel String) :
    (App.select app index tx).1.selected_index = index := by
  by_cases h : app.selected_index ≠ index ∨ app.current_email_body = ""
  · cases hget : app.emails.get? index <;>
      simp only [App.select, if_pos h, hget]
  · simp only [App.select, if_neg h]
    push_neg at h
    exact h.1

/-- C6: `select` sets the selection, resets the scroll, installs the
loading placeholder and attempts a non-blocking `try_send` of the
selected email's id exactly when the target index differs from the
current one or the current body is empty (not yet loaded); otherwise it
changes nothing and sends nothing; a send on a full channel is dropped
without effect on the channel. -/
theorem C6_select_spec (app : App) (tx : Channel String) (index : Nat) :
    (app.selected_index ≠ index ∨ app.current_email_body = "" →
      (App.select app index tx).1.selected_index = index ∧
      (App.select app index tx).1.scroll_offset = 0 ∧
      (App.select app index tx).1.current_email_body = "Loading..." ∧
      (App.select app index tx).1.emails = app.emails ∧
      (App.select app index tx).1.mode = app.mode ∧
      (App.select app index tx).1.is_loading = app.is_loading ∧
      (∀ email, app.emails.get? index = some email →
        (App.select app index tx).2 = tx.try_send email.id) ∧
      (app.emails.get? index = none → (App.select app index tx).2 = tx)) ∧
    (app.selected_index = index ∧ app.current_email_body ≠ "" →
      App.select app index tx = (app, tx)) ∧
    (∀ x : String, tx.capacity ≤ tx.buffer.length → tx.try_send x = tx) := by
  refine ⟨?_, ?_, ?_⟩
  · intro hcond
    cases hget : app.emails.get? index with
    | some email =>
      have hsel : App.select app index tx =
          ({ app with
              selected_index := index
              scroll_offset := 0
              current_email_body := "Loading..." }, tx.try_send email.id) := by
        simp only [App.select, if_pos hcond, hget]
      rw [hsel]
      refine ⟨rfl, rfl, rfl, rfl, rfl, rfl, ?_, ?_⟩
      · intro email' h
        injection h with h
        rw [h]
      · intro h
        exact Option.noConfusion h
    | none =>
      have hsel : App.select app index tx =
          ({ app with
              selected_index := index
              scroll_offset := 0
              current_email_body := "Loading..." }, tx) := by
        simp only [App.select, if_pos hcond, hget]
      rw [hsel]
      refine ⟨rfl, rfl, rfl, rfl, rfl, rfl, ?_, fun _ => rfl⟩
      intro email' h
      exact Option.noConfusion h
  · rintro ⟨h1, h2⟩
    have hc : ¬(app.selected_index ≠ index ∨ app.current_email_body = "") := by
      simp [h1, h2]
    simp only [App.select, if_neg hc]
  · intro x h
    have hc : ¬(tx.buffer.length < tx.capacity) := by omega
    simp only [Channel.try_send, if_neg hc]

/-- Witness for C6: selecting index 1 from index 0 on a two-element list
sets the selection, installs the placeholder, and enqueues the second
email's id. -/
theorem C6_select_spec_witness :
    (App.select
        { mode := .List, is_loading := false,
          emails := [⟨"m1", "a", "s1", false, "p1"⟩, ⟨"m2", "b", "s2", true, "p2"⟩],
          selected_index := 0, current_email_body := "old body", scroll_offset := 4 }
        1 ⟨[], 10⟩).1.selected_index = 1 ∧
    (App.select
        { mode := .List, is_loading := false,
          emails := [⟨"m1", "a", "s1", false, "p1"⟩, ⟨"m2", "b", "s2", true, "p2"⟩],
          selected_index := 0, current_email_body := "old body", scroll_offset := 4 }
        1 ⟨[], 10⟩).1.current_email_body = "Loading..." ∧
    (App.select
        { mode := .List, is_loading := false,
          emails := [⟨"m1", "a", "s1", false, "p1"⟩, ⟨"m2", "b", "s2", true, "p2"⟩],
          selected_index := 0, current_email_body := "old body", scroll_offset := 4 }
        1 ⟨[], 10⟩).2 = Channel.try_send ⟨[], 10⟩ "m2" := by
  have h := (C6_select_spec
    { mode := .List, is_loading := false,
      emails := [⟨"m1", "a", "s1", false, "p1"⟩, ⟨"m2", "b", "s2", true, "p2"⟩],
      selected_index := 0, current_email_body := "old body", scroll_offset := 4 }
    ⟨[], 10⟩ 1).1 (by decide)
  exact ⟨h.1, h.2.2.1, h.2.2.2.2.2.2.1 ⟨"m2", "b", "s2", true, "p2"⟩ rfl⟩

/-- C7: the Viewing-quit handler calls mark-read exactly when the selected
email is unread; on success the flag is flipped to false, on failure the
list is untouched; on an already-read email no call is made and a second
pass also changes nothing; the mode always returns to List. -/
theorem C7_viewing_quit_markread (app : App) (markReadOk : String → Bool)
    (email : EmailInfo)
    (hget : app.emails.get? app.selected_index = some email) :
    (email.is_unread = true → markReadOk email.id = true →
      (viewingQuit app markReadOk).1.emails =
        app.emails.set app.selected_index { email with is_unread := false } ∧
      (viewingQuit app markReadOk).2 = [.markRead email.id]) ∧
    (email.is_unread = true → markReadOk email.id = false →
      (viewingQuit app markReadOk).1.emails = app.emails ∧
      (viewingQuit app markReadOk).2 = [.markRead email.id]) ∧
    (email.is_unread = false →
      (viewingQuit app markReadOk).2 = [] ∧
      (viewingQuit app markReadOk).1.emails = app.emails ∧
      (viewingQuit (viewingQuit app markReadOk).1 markReadOk).1.emails = app.emails ∧
      (viewingQuit (viewingQuit app markReadOk).1 markReadOk).2 = []) ∧
    (viewingQuit app markReadOk).1.mode = .List := by
  have hget' := hget
  rw [List.get?_eq_getElem?] at hget'
  refine ⟨?_, ?_, ?_, ?_⟩
  · intro hu hok
    constructor <;> simp [viewingQuit, hget', hu, hok]
  · intro hu hok
    constructor <;> simp [viewingQuit, hget', hu, hok]
  · intro hu
    have hVQ1 : viewingQuit app markReadOk = ({ app with mode := .List }, []) := by
      simp [viewingQuit, hget', hu]
    refine ⟨by rw [hVQ1], by rw [hVQ1], ?_, ?_⟩
    · rw [hVQ1]
      simp [viewingQuit, hget', hu]
    · rw [hVQ1]
      simp [viewingQuit, hget', hu]
  · cases hu : email.is_unread with
    | false => simp [viewingQuit, hget', hu]
    | true => cases hok : markReadOk email.id <;> simp [viewingQuit, hget', hu, hok]

/-- Witness for C7: a successful mark-read on an unread selected email
flips its flag; a second quit pass on the now-read email makes no call. -/
theorem C7_viewing_quit_markread_witness :
    (viewingQuit
        { mode := .Viewing, is_loading := false,
          emails := [⟨"m1", "a", "s1", true, "p1"⟩],
          selected_index := 0, current_email_body := "b", scroll_offset := 0 }
        (fun _ => true)).1.emails = [⟨"m1", "a", "s1", false, "p1"⟩] ∧
    (viewingQuit
        { mode := .Viewing, is_loading := false,
          emails := [⟨"m1", "a", "s1", true, "p1"⟩],
          selected_index := 0, current_email_body := "b", scroll_offset := 0 }
        (fun _ => true)).2 = [.markRead "m1"] := by
  have h := (C7_viewing_quit_markread
    { mode := .Viewing, is_loading := false,
      emails := [⟨"m1", "a", "s1", true, "p1"⟩],
      selected_index := 0, current_email_body := "b", scroll_offset := 0 }
    (fun _ => true) ⟨"m1", "a", "s1", true, "p1"⟩ rfl).1 rfl rfl
  exact ⟨h.1, h.2⟩

/-- C8: navigation wraps around: `next` on the last index goes to 0,
`previous` on index 0 goes to `length - 1`, interior moves step by one,
and both are no-ops on an empty list. -/
theorem C8_wraparound (app : App) (tx : Channel String) :
    (app.emails = [] →
      App.next app tx = (app, tx) ∧ App.previous app tx = (app, tx)) ∧
    (app.emails ≠ [] → app.selected_index = app.emails.length - 1 →
      (App.next app tx).1.selected_index = 0) ∧
    (app.emails ≠ [] → app.selected_index < app.emails.length - 1 →
      (App.next app tx).1.selected_index = app.selected_index + 1) ∧
    (app.emails ≠ [] → app.selected_index = 0 →
      (App.previous app tx).1.selected_index = app.emails.length - 1) ∧
    (app.emails ≠ [] → 0 < app.selected_index →
      (App.previous app tx).1.selected_index = app.selected_index - 1) := by
  refine ⟨?_, ?_, ?_, ?_, ?_⟩
  · intro he
    constructor <;> simp [App.next, App.previous, he]
  · intro hne hlast
    have hc : ¬(app.emails.isEmpty = true) := by simp [List.isEmpty_iff, hne]
    have hc2 : ¬(app.selected_index < app.emails.length - 1) := by omega
    simp only [App.next, if_neg hc, if_neg hc2]
    exact select_selected_index app 0 tx
  · intro hne hlt
    have hc : ¬(app.emails.isEmpty = true) := by simp [List.isEmpty_iff, hne]
    simp only [App.next, if_neg hc, if_pos hlt]
    exact select_selected_index app (app.selected_index + 1) tx
  · intro hne h0
    have hc : ¬(app.emails.isEmpty = true) := by simp [List.isEmpty_iff, hne]
    have hc2 : ¬(app.selected_index > 0) := by omega
    simp only [App.previous, if_neg hc, if_neg hc2]
    exact select_selected_index app (app.emails.length - 1) tx
  · intro hne hpos
    have hc : ¬(app.emails.isEmpty = true) := by simp [List.isEmpty_iff, hne]
    simp only [App.previous, if_neg hc, if_pos hpos]
    exact select_selected_index app (app.selected_index - 1) tx

/-- Witness for C8: pressing down three times on a two-item list starting
at index 0 visits the selection sequence 1, 0, 1. -/
theorem C8_wraparound_witness :
    (App.next
      { mode := .List, is_loading := false,
        emails := [⟨"mA", "a", "sA", false, "pA"⟩, ⟨"mB", "b", "sB", false, "pB"⟩],
        selected_index := 0, current_email_body := "body", scroll_offset := 0 }
      ⟨[], 10⟩).1.selected_index = 1 ∧
    ((App.next
      { mode := .List, is_loading := false,
        emails := [⟨"mA", "a", "sA", false, "pA"⟩, ⟨"mB", "b", "sB", false, "pB"⟩],
        selected_index := 0, current_email_body := "body", scroll_offset := 0 }
      ⟨[], 10⟩).1.next ⟨[], 10⟩).1.selected_index = 0 ∧
    (((App.next
      { mode := .List, is_loading := false,
        emails := [⟨"mA", "a", "sA", false, "pA"⟩, ⟨"mB", "b", "sB", false, "pB"⟩],
        selected_index := 0, current_email_body := "body", scroll_offset := 0 }
      ⟨[], 10⟩).1.next ⟨[], 10⟩).1.next ⟨[], 10⟩).1.selected_index = 1 := by
  refine ⟨?_, ?_, ?_⟩
  · exact (C8_wraparound _ _).2.2.1 (by decide) (by decide)
  · exact (C8_wraparound _ _).2.1 (by decide) (by decide)
  · exact (C8_wraparound _ _).2.2.1 (by decide) (by decide)

/-- `select` establishes the selection invariant whenever the target
index is in bounds. -/
theorem appInv_select (app : App) (index : Nat) (tx : Channel String)
    (hi : index < app.emails.length) : AppInv (App.select app index tx).1 := by
  constructor
  · intro _
    rw [select_selected_index, select_emails]
    exact hi
  · intro h
    rw [select_emails] at h
    rw [h] at hi
    simp at hi

/-- `next` preserves the selection invariant. -/
theorem appInv_next (app : App) (tx : Channel String) (h : AppInv app) :
    AppInv (App.next app tx).1 := by
  by_cases he : app.emails.isEmpty = true
  · simp only [App.next, if_pos he]
    exact h
  · simp only [App.next, if_neg he]
    have hne : app.emails ≠ [] := by simpa [List.isEmpty_iff] using he
    have hpos : 0 < app.emails.length := List.length_pos.2 hne
    apply appInv_select
    split <;> omega

/-- `previous` preserves the selection invariant. -/
theorem appInv_previous (app : App) (tx : Channel String) (h : AppInv app) :
    AppInv (App.previous app tx).1 := by
  by_cases he : app.emails.isEmpty = true
  · simp only [App.previous, if_pos he]
    exact h
  · simp only [App.previous, if_neg he]
    have hne : app.emails ≠ [] := by simpa [List.isEmpty_iff] using he
    have hsel := h.1 hne
    apply appInv_select
    split <;> omega

/-- The Viewing-quit handler changes neither the selection nor the list
length. -/
theorem viewingQuit_selected_length (app : App) (markReadOk : String → Bool) :
    (viewingQuit app markReadOk).1.selected_index = app.selected_index ∧
    (viewingQuit app markReadOk).1.emails.length = app.emails.length := by
  rcases hget : app.emails[app.selected_index]? with _ | email
  · constructor <;> simp [viewingQuit, hget]
  · cases hu : email.is_unread with
    | false => constructor <;> simp [viewingQuit, hget, hu]
    | true =>
      cases hok : markReadOk email.id <;>
        constructor <;> simp [viewingQuit, hget, hu, hok]

/-- The Viewing-quit handler preserves the selection invariant. -/
theorem appInv_viewingQuit (app : App) (markReadOk : String → Bool) (h : AppInv app) :
    AppInv (viewingQuit app markReadOk).1 := by
  obtain ⟨hs, hl⟩ := viewingQuit_selected_length app markReadOk
  constructor
  · intro hne
    rw [hs, hl]
    apply h.1
    intro hcon
    apply hne
    rw [← List.length_eq_zero, hl, hcon]
    rfl
  · intro hemp
    rw [hs]
    apply h.2
    rw [← List.length_eq_zero, ← hl, hemp]
    rfl

/-- Key handling preserves the selection invariant. -/
theorem appInv_handleKey (app : App) (tx : Channel String) (k : Key)
    (markReadOk : String → Bool) (h : AppInv app) :
    AppInv (handleKey app tx k markReadOk).app := by
  cases hm : app.mode <;> cases k <;> simp only [handleKey, hm]
  case List.char_q => exact h
  case List.down => exact appInv_next app tx h
  case List.up => exact appInv_previous app tx h
  case List.enter => exact ⟨h.1, h.2⟩
  case List.other => exact h
  case Viewing.char_q => exact appInv_viewingQuit app markReadOk h
  case Viewing.down => exact ⟨h.1, h.2⟩
  case Viewing.up => exact ⟨h.1, h.2⟩
  case Viewing.enter => exact h
  case Viewing.other => exact h

/-- The channel-drain step preserves the selection invariant. -/
theorem appInv_drainStep (s : LoopState) (h : AppInv s.app) :
    AppInv (drainStep s).app := by
  obtain ⟨app, ini, ⟨hbuf, hcl⟩, ⟨bbuf, bcl⟩, tx⟩ := s
  simp only at h
  by_cases hl : app.is_loading = true
  · cases hbuf with
    | nil =>
      cases hcl <;> simp only [drainStep, if_pos hl, Rx.try_recv]
      · exact h
      · exact ⟨h.1, h.2⟩
    | cons e rest =>
      have hbound : app.selected_index < app.emails.length + 1 := by
        by_cases he : app.emails = []
        · have := h.2 he
          omega
        · have := h.1 he
          omega
      cases ini <;> simp only [drainStep, if_pos hl, Rx.try_recv]
      · apply appInv_select
        simp
      · constructor
        · intro _
          simpa using hbound
        · intro hcon
          simp at hcon
  · cases bbuf with
    | nil =>
      cases bcl <;> simp only [drainStep, if_neg hl, Rx.try_recv] <;> exact h
    | cons b rest =>
      simp only [drainStep, if_neg hl, Rx.try_recv]
      exact ⟨h.1, h.2⟩

/-- A whole loop iteration preserves the selection invariant. -/
theorem appInv_iteration (s : LoopState) (key : Option Key) (markReadOk : String → Bool)
    (h : AppInv s.app) : AppInv (iteration s key markReadOk).1.app := by
  cases key with
  | none => exact appInv_drainStep s h
  | some k =>
    exact appInv_handleKey (drainStep s).app (drainStep s).tx k markReadOk
      (appInv_drainStep s h)

/-- C9: the selection invariant — `selected_index < emails.length` when
the list is non-empty and `selected_index = 0` when it is empty — holds
for the initial state and is preserved by navigation, in-bounds
selection, the channel-drain step (summary append, auto-select, body
apply, loading-flag clear), key handling (mode changes, scrolling,
mark-read) and whole loop iterations. -/
theorem C9_selected_index_invariant :
    AppInv initApp ∧
    (∀ (app : App) (tx : Channel String), AppInv app → AppInv (App.next app tx).1) ∧
    (∀ (app : App) (tx : Channel String), AppInv app → AppInv (App.previous app tx).1) ∧
    (∀ (app : App) (index : Nat) (tx : Channel String),
      index < app.emails.length → AppInv (App.select app index tx).1) ∧
    (∀ s : LoopState, AppInv s.app → AppInv (drainStep s).app) ∧
    (∀ (app : App) (tx : Channel String) (k : Key) (markReadOk : String → Bool),
      AppInv app → AppInv (handleKey app tx k markReadOk).app) ∧
    (∀ (s : LoopState) (key : Option Key) (markReadOk : String → Bool),
      AppInv s.app → AppInv (iteration s key markReadOk).1.app) :=
  ⟨⟨fun hne => absurd rfl hne, fun _ => rfl⟩, appInv_next, appInv_previous,
    appInv_select, appInv_drainStep, appInv_handleKey, appInv_iteration⟩

/-- Witness for C9: the invariant survives a wraparound `next` from the
last index of a concrete two-element list. -/
theorem C9_selected_index_invariant_witness :
    AppInv (App.next
      { mode := .List, is_loading := false,
        emails := [⟨"w1", "f", "s", false, "p"⟩, ⟨"w2", "g", "t", false, "q"⟩],
        selected_index := 1, current_email_body := "b", scroll_offset := 0 }
      ⟨[], 10⟩).1 :=
  C9_selected_index_invariant.2.1 _ _ ⟨fun _ => by decide, fun hcon => List.noConfusion hcon⟩

/-- C10: each drain step consumes at most one channel message; while the
loading flag is set only the header channel is polled (one summary
appended) and the body channel is left untouched, so a pending body
result is applied to the current body only once loading is over, when
only the body channel is polled. -/
theorem C10_drain_gating (s : LoopState) :
    (s.header_rx.buffer.length + s.body_rx.buffer.length ≤
      (drainStep s).header_rx.buffer.length + (drainStep s).body_rx.buffer.length + 1) ∧
    (s.app.is_loading = true →
      (drainStep s).body_rx = s.body_rx ∧
      (∀ e rest, s.header_rx.buffer = e :: rest →
        (drainStep s).header_rx.buffer = rest ∧
        (drainStep s).app.emails = s.app.emails ++ [e]) ∧
      (s.header_rx.buffer = [] →
        (drainStep s).app.emails = s.app.emails ∧
        (drainStep s).app.current_email_body = s.app.current_email_body ∧
        (drainStep s).header_rx.buffer = [])) ∧
    (s.app.is_loading = false →
      (drainStep s).header_rx = s.header_rx ∧
      (drainStep s).app.emails = s.app.emails ∧
      (∀ b rest, s.body_rx.buffer = b :: rest →
        (drainStep s).app.current_email_body = b ∧
        (drainStep s).body_rx.buffer = rest) ∧
      (s.body_rx.buffer = [] → drainStep s = s)) := by
  obtain ⟨app, ini, ⟨hbuf, hcl⟩, ⟨bbuf, bcl⟩, tx⟩ := s
  by_cases hl : app.is_loading = true
  · have hlf : ¬app.is_loading = false := by simp [hl]
    refine ⟨?_, ?_, ?_⟩
    · cases hbuf with
      | nil =>
        cases hcl <;> simp [drainStep, if_pos hl, Rx.try_recv]
      | cons e rest =>
        cases ini <;> simp [drainStep, if_pos hl, Rx.try_recv] <;> omega
    · intro _
      refine ⟨?_, ?_, ?_⟩
      · cases hbuf with
        | nil => cases hcl <;> simp only [drainStep, if_pos hl] <;> rfl
        | cons e rest => cases ini <;> simp only [drainStep, if_pos hl] <;> rfl
      · intro e rest hb
        subst hb
        cases ini <;>
          simp [drainStep, if_pos hl, Rx.try_recv, select_emails]
      · intro hb
        subst hb
        cases hcl <;> simp only [drainStep, if_pos hl] <;>
          exact ⟨rfl, rfl, rfl⟩
    · intro hf
      simp only at hf
      exact absurd hf hlf
  · have hlf : app.is_loading = false := by simpa using hl
    refine ⟨?_, ?_, ?_⟩
    · cases bbuf with
      | nil =>
        cases bcl <;> simp only [drainStep, if_neg hl, Rx.try_recv] <;> simp
      | cons b rest =>
        simp only [drainStep, if_neg hl, Rx.try_recv]
        simp
        omega
    · intro ht
      simp only at ht
      rw [ht] at hlf
      exact Bool.noConfusion hlf
    · intro _
      refine ⟨?_, ?_, ?_, ?_⟩
      · cases bbuf with
        | nil => cases bcl <;> simp only [drainStep, if_neg hl] <;> rfl
        | cons b rest =>
          simp only [drainStep, if_neg hl]
          rfl
      · cases bbuf with
        | nil => cases bcl <;> simp only [drainStep, if_neg hl] <;> rfl
        | cons b rest =>
          simp only [drainStep, if_neg hl]
          rfl
      · intro b rest hb
        subst hb
        simp only [drainStep, if_neg hl]
        exact ⟨rfl, rfl⟩
      · intro hb
        subst hb
        cases bcl <;> simp only [drainStep, if_neg hl] <;> rfl

/-- Witness for C10: on a loading state with one pending header summary
and one pending (stale) body result, the drain step appends the summary
and leaves the body channel untouched. -/
theorem C10_drain_gating_witness :
    (drainStep
      { app := initApp
        initial_load_done := true
        header_rx := ⟨[⟨"w9", "f", "s", false, "p"⟩], false⟩
        body_rx := ⟨["stale body"], false⟩
        tx := ⟨[], 10⟩ }).body_rx.buffer = ["stale body"] ∧
    (drainStep
      { app := initApp
        initial_load_done := true
        header_rx := ⟨[⟨"w9", "f", "s", false, "p"⟩], false⟩
        body_rx := ⟨["stale body"], false⟩
        tx := ⟨[], 10⟩ }).app.emails = [⟨"w9", "f", "s", false, "p"⟩] := by
  have h := (C10_drain_gating
    { app := initApp
      initial_load_done := true
      header_rx := ⟨[⟨"w9", "f", "s", false, "p"⟩], false⟩
      body_rx := ⟨["stale body"], false⟩
      tx := ⟨[], 10⟩ }).2.1 rfl
  constructor
  · rw [h.1]
  · rw [(h.2.1 ⟨"w9", "f", "s", false, "p"⟩ [] rfl).2]
    rfl

/-- Witness for C1: on a message whose payload is a single plain-text part
whose data decodes to `"HELLO"`, the decoder returns `"HELLO"`. -/
theorem C1_decode_email_body_tiering_witness :
    decode_email_body (fun s => some s) (fun s _ => s)
      ⟨"x", "SNIP", some (.mk [] (some ⟨some "HELLO"⟩) none "text/plain"), none⟩ =
      "HELLO" :=
  (C1_decode_email_body_tiering (fun s => some s) (fun s _ => s)
      ⟨"x", "SNIP", some (.mk [] (some ⟨some "HELLO"⟩) none "text/plain"), none⟩).1
    (.mk [] (some ⟨some "HELLO"⟩) none "text/plain") "HELLO" rfl
    (by simp [find_body_parts])

end GmailCli
